import Mathlib

/-!
Shallow embedding of the rlox execution core (scanner, chunk, value array,
virtual machine, compiler driver) from src/rlox/src, together with theorems
settling the specification claims about it.

Conventions of the embedding:
* Rust `Vec<T>` becomes `List T`; `u8` bytes become `Nat` with an explicit
  `% 256` at the one place the source casts (`as u8` in `add_constants`).
* Rust panics (out-of-bounds indexing or slicing, invalid opcode, `unwrap`
  on an empty stack) become `Except` errors (`ScanFault`, `RunFault`).
* Source-level `loop`/`while` constructs become fuel-indexed recursion
  returning `Option`; `none` means the fuel ran out, and the termination
  theorem shows `source.length + 1` fuel always suffices for `scan_token`.
* `f64` is modelled by an arbitrary value type with the arithmetic the VM
  uses; end-to-end evaluations instantiate it with the exact rationals,
  since IEEE-754 rounding is outside the scope of the embedding.
-/

namespace RLox

/-! ## Scanner data model (scanner.rs) -/

inductive TokenType where
  | LeftParen | RightParen | LeftBrace | RightBrace
  | Comma | Dot | Minus | Plus | Semicolon | Slash | Star
  | Bang | BangEqual | Equal | EqualEqual
  | Greater | GreaterEqual | Less | LessEqual
  | Identifier | String | Number
  | And | Class | Else | False | Fun | For | If | Nil | Or
  | Print | Return | Super | This | True | Var | While
  | Error | Eof
deriving DecidableEq, Repr

structure Token where
  token_type : TokenType
  lexeme : String
  line : Nat
deriving DecidableEq, Repr

structure Scanner where
  source : List Char
  start : Nat
  current : Nat
  line : Nat
deriving DecidableEq, Repr

/-- Faults with which scanner code aborts: Rust index / slice panics. -/
inductive ScanFault where
  | indexOutOfBounds
  | sliceOutOfBounds
deriving DecidableEq, Repr

/-- The NUL character the scanner uses as its end-of-input sentinel. -/
def nulChar : Char := Char.ofNat 0

def Scanner.new (source : String) : Scanner :=
  ⟨source.data, 0, 0, 1⟩

/-- `Scanner::is_at_end`: `self.current >= self.source.len()`. -/
def Scanner.is_at_end (s : Scanner) : Bool :=
  s.source.length ≤ s.current

/-- `Scanner::current`: the character under the cursor, or NUL at end of
input. Named `currentChar` because `current` is already the field name. -/
def Scanner.currentChar (s : Scanner) : Char :=
  if s.is_at_end then nulChar else s.source.getD s.current nulChar

/-- `Scanner::peek`: guards with `is_at_end` but then indexes
`source[current + 1]`, so with the cursor on the last character the read is
one past the buffer: an index panic, modelled as `indexOutOfBounds`. -/
def Scanner.peek (s : Scanner) : Except ScanFault (Option Char) :=
  if s.is_at_end then .ok none
  else if h : s.current + 1 < s.source.length then
    .ok (some (s.source.get ⟨s.current + 1, h⟩))
  else .error .indexOutOfBounds

/-- `Scanner::advance`: `current += 1`, returning `source[current - 1]`.
Every call site has first established that the cursor is in bounds, so the
`getD` default is unreachable there. -/
def Scanner.advance (s : Scanner) : Scanner × Char :=
  ({ s with current := s.current + 1 }, s.source.getD s.current nulChar)

/-- `Scanner::match_and_advance`. -/
def Scanner.match_and_advance (s : Scanner) (expected : Char) : Scanner × Bool :=
  if s.is_at_end then (s, false)
  else if s.source.getD s.current nulChar ≠ expected then (s, false)
  else ({ s with current := s.current + 1 }, true)

/-- `Scanner::get_text`: `source[start..current]` collected to a string.
At every call site `start ≤ current ≤ source.len()`. -/
def Scanner.get_text (s : Scanner) : String :=
  String.mk ((s.source.drop s.start).take (s.current - s.start))

def Scanner.make_token (s : Scanner) (tt : TokenType) : Token :=
  ⟨tt, s.get_text, s.line⟩

def Scanner.error_token (s : Scanner) (message : String) : Token :=
  ⟨.Error, message, s.line⟩

/-- `Scanner::check_keyword`: collects `source[start..start + length]` and
compares it with `rest`. The Rust slice panics when `start + length`
exceeds the buffer length (`sliceOutOfBounds`). Note that `identifier_type`
passes the absolute token start for `start`, so the compared slice begins at
the first character of the lexeme while `rest` is a keyword suffix. -/
def Scanner.check_keyword (s : Scanner) (start length : Nat) (rest : String)
    (token_type : TokenType) : Except ScanFault TokenType :=
  if start + length ≤ s.source.length then
    let text : String := String.mk ((s.source.drop start).take length)
    if text = rest then .ok token_type else .ok .Identifier
  else .error .sliceOutOfBounds

/-- `Scanner::identifier_type`: first-character dispatch over the keyword
table. `source[self.start]` is in bounds whenever `identifier` calls this
(an alphabetic character was consumed at `start`), so `getD` is faithful. -/
def Scanner.identifier_type (s : Scanner) : Except ScanFault TokenType :=
  match s.source.getD s.start nulChar with
  | 'a' => s.check_keyword s.start 2 "nd" .And
  | 'c' => s.check_keyword s.start 4 "lass" .Class
  | 'e' => s.check_keyword s.start 3 "lse" .Else
  | 'f' =>
    if s.current - s.start > 1 then
      match s.source.getD (s.start + 1) nulChar with
      | 'a' => s.check_keyword s.start 3 "lse" .False
      | 'o' => s.check_keyword s.start 1 "r" .For
      | 'u' => s.check_keyword s.start 1 "n" .Fun
      | _ => .ok .Identifier
    else .ok .Identifier
  | 'i' => s.check_keyword s.start 1 "f" .If
  | 'n' => s.check_keyword s.start 2 "il" .Nil
  | 'o' => s.check_keyword s.start 1 "r" .Or
  | 'p' => s.check_keyword s.start 4 "rint" .Print
  | 'r' => s.check_keyword s.start 5 "eturn" .Return
  | 's' => s.check_keyword s.start 4 "uper" .Super
  | 't' =>
    if s.current - s.start > 1 then
      match s.source.getD (s.start + 1) nulChar with
      | 'h' => s.check_keyword s.start 2 "is" .This
      | 'r' => s.check_keyword s.start 2 "ue" .True
      | _ => .ok .Identifier
    else .ok .Identifier
  | 'v' => s.check_keyword s.start 2 "ar" .Var
  | 'w' => s.check_keyword s.start 4 "hile" .While
  | _ => .ok .Identifier

/-- Rust `char::is_alphabetic`, restricted to the ASCII range (no claim
distinguishes non-ASCII letters). -/
def rustIsAlphabetic (c : Char) : Bool := c.isAlpha

/-- `Scanner::is_alphanumeric`: `c.is_alphanumeric() || c == '_'`, again on
the ASCII range. -/
def isAlphanumericChar (c : Char) : Bool := c.isAlphanum || c = '_'

/-- The `while is_alphanumeric(current)` loop of `Scanner::identifier`. -/
def Scanner.identLoop : Nat → Scanner → Option Scanner
  | 0, _ => none
  | fuel + 1, s =>
    if isAlphanumericChar s.currentChar then Scanner.identLoop fuel (s.advance).1
    else some s

/-- `Scanner::identifier`. -/
def Scanner.identifier (fuel : Nat) (s : Scanner) :
    Option (Except ScanFault (Scanner × Token)) :=
  match Scanner.identLoop fuel s with
  | none => none
  | some s =>
    match s.identifier_type with
    | .error e => some (.error e)
    | .ok tt => some (.ok (s, s.make_token tt))

/-- The `while current().is_ascii_digit()` loop of `Scanner::number`.
Lean `Char.isDigit` coincides with Rust `char::is_ascii_digit`. -/
def Scanner.digitLoop : Nat → Scanner → Option Scanner
  | 0, _ => none
  | fuel + 1, s =>
    if s.currentChar.isDigit then Scanner.digitLoop fuel (s.advance).1
    else some s

/-- `Scanner::number`. -/
def Scanner.number (fuel : Nat) (s : Scanner) :
    Option (Except ScanFault (Scanner × Token)) :=
  match Scanner.digitLoop fuel s with
  | none => none
  | some s =>
    if s.currentChar = '.' then
      match s.peek with
      | .error e => some (.error e)
      | .ok (some i) =>
        if i.isDigit then
          match Scanner.digitLoop fuel ((s.advance).1) with
          | none => none
          | some s2 => some (.ok (s2, s2.make_token .Number))
        else some (.ok (s, s.make_token .Number))
      | .ok none => some (.ok (s, s.make_token .Number))
    else some (.ok (s, s.make_token .Number))

/-- The scan loop of `Scanner::string`. -/
def Scanner.stringLoop : Nat → Scanner → Option Scanner
  | 0, _ => none
  | fuel + 1, s =>
    if s.currentChar ≠ '"' ∧ ¬ s.is_at_end then
      let s := if s.currentChar = '\n' then { s with line := s.line + 1 } else s
      Scanner.stringLoop fuel (s.advance).1
    else some s

/-- `Scanner::string`. -/
def Scanner.stringTok (fuel : Nat) (s : Scanner) :
    Option (Except ScanFault (Scanner × Token)) :=
  match Scanner.stringLoop fuel s with
  | none => none
  | some s =>
    if s.is_at_end then some (.ok (s, s.error_token "Unterminated string."))
    else
      let s := (s.advance).1
      some (.ok (s, s.make_token .String))

/-- The `while current() != newline and not at end` comment loop inside
`Scanner::skip_ignored`. -/
def Scanner.commentLoop : Nat → Scanner → Option Scanner
  | 0, _ => none
  | fuel + 1, s =>
    if s.currentChar ≠ '\n' ∧ ¬ s.is_at_end then
      Scanner.commentLoop fuel (s.advance).1
    else some s

/-- `Scanner::skip_ignored`. -/
def Scanner.skip_ignored : Nat → Scanner → Option (Except ScanFault Scanner)
  | 0, _ => none
  | fuel + 1, s =>
    let c := s.currentChar
    if c = ' ' ∨ c = '\r' ∨ c = '\t' then
      Scanner.skip_ignored fuel (s.advance).1
    else if c = '\n' then
      Scanner.skip_ignored fuel (({ s with line := s.line + 1 }).advance).1
    else if c = '/' then
      match s.peek with
      | .error e => some (.error e)
      | .ok (some c2) =>
        if c2 = '/' then
          match Scanner.commentLoop (fuel + 1) s with
          | none => none
          | some s2 => Scanner.skip_ignored fuel s2
        else some (.ok s)
      | .ok none => some (.ok s)
    else some (.ok s)

def leftBraceChar : Char := Char.ofNat 123

def rightBraceChar : Char := Char.ofNat 125

/-- The body of `Scanner::scan_token` after `skip_ignored` has run,
factored out to keep the match on the skip result readable. The character
dispatch of the Rust `match` is rendered as an if-chain. -/
def Scanner.scanTokenCore (fuel : Nat) (s : Scanner) :
    Option (Except ScanFault (Scanner × Token)) :=
  let s := { s with start := s.current }
  if s.is_at_end then some (.ok (s, s.make_token .Eof))
  else
    let p := s.advance
    let s := p.1
    let c := p.2
    if rustIsAlphabetic c then Scanner.identifier fuel s
    else if c.isDigit then Scanner.number fuel s
    else if c = '(' then some (.ok (s, s.make_token .LeftParen))
    else if c = ')' then some (.ok (s, s.make_token .RightParen))
    else if c = leftBraceChar then some (.ok (s, s.make_token .LeftBrace))
    else if c = rightBraceChar then some (.ok (s, s.make_token .RightBrace))
    else if c = ';' then some (.ok (s, s.make_token .Semicolon))
    else if c = ',' then some (.ok (s, s.make_token .Comma))
    else if c = '.' then some (.ok (s, s.make_token .Dot))
    else if c = '-' then some (.ok (s, s.make_token .Minus))
    else if c = '+' then some (.ok (s, s.make_token .Plus))
    else if c = '/' then some (.ok (s, s.make_token .Slash))
    else if c = '*' then some (.ok (s, s.make_token .Star))
    else if c = '!' then
      let q := s.match_and_advance '='
      some (.ok (q.1, q.1.make_token (if q.2 then .BangEqual else .Bang)))
    else if c = '=' then
      let q := s.match_and_advance '='
      some (.ok (q.1, q.1.make_token (if q.2 then .EqualEqual else .Equal)))
    else if c = '<' then
      let q := s.match_and_advance '='
      some (.ok (q.1, q.1.make_token (if q.2 then .LessEqual else .Less)))
    else if c = '>' then
      let q := s.match_and_advance '='
      some (.ok (q.1, q.1.make_token (if q.2 then .GreaterEqual else .Greater)))
    else if c = '"' then Scanner.stringTok fuel s
    else some (.ok (s, s.error_token "Unexpected character."))

/-- `Scanner::scan_token`. -/
def Scanner.scan_token (fuel : Nat) (s : Scanner) :
    Option (Except ScanFault (Scanner × Token)) :=
  match Scanner.skip_ignored fuel s with
  | none => none
  | some (.error e) => some (.error e)
  | some (.ok s) => Scanner.scanTokenCore fuel s

/-! ## Chunk, opcodes, values (chunk.rs, value.rs) -/

inductive OpCode where
  | Constant | Return | Negate | Add | Subtract | Multiply | Divide
deriving DecidableEq, Repr

/-- `impl From<OpCode> for u8`: the discriminant values of chunk.rs. -/
def OpCode.toByte : OpCode → Nat
  | .Constant => 0
  | .Return => 1
  | .Negate => 2
  | .Add => 3
  | .Subtract => 4
  | .Multiply => 5
  | .Divide => 6

/-- Faults with which VM code aborts: the `panic!` of `From<u8> for OpCode`,
Rust index panics in `Chunk::read`, `unwrap` on an empty stack, and the
bounds check of `ValueArray::read`. -/
inductive RunFault where
  | invalidOpCode
  | readOutOfBounds
  | popEmptyStack
  | constantOutOfBounds
deriving DecidableEq, Repr

/-- `impl From<u8> for OpCode`: any byte above 6 panics. -/
def opCodeOfByte (b : Nat) : Except RunFault OpCode :=
  match b with
  | 0 => .ok .Constant
  | 1 => .ok .Return
  | 2 => .ok .Negate
  | 3 => .ok .Add
  | 4 => .ok .Subtract
  | 5 => .ok .Multiply
  | 6 => .ok .Divide
  | _ => .error .invalidOpCode

structure ValueArray (α : Type) where
  values : List α
deriving DecidableEq, Repr

def ValueArray.new {α : Type} : ValueArray α := ⟨[]⟩

/-- `ValueArray::write`: push and return the previous count. -/
def ValueArray.write {α : Type} (va : ValueArray α) (value : α) : ValueArray α × Nat :=
  (⟨va.values ++ [value]⟩, va.values.length)

/-- Modelled from the spec: value.rs declares no `read`, yet
`Chunk::get_constant` calls `self.constants.read(index)`; section 4.3 of the
spec describes `read(index)` as bounds-checked access, so out-of-range
indices are a fault. -/
def ValueArray.read {α : Type} (va : ValueArray α) (index : Nat) : Except RunFault α :=
  match va.values.get? index with
  | some v => .ok v
  | none => .error .constantOutOfBounds

/-- `ValueArray::free`: `values = Vec::new()`. -/
def ValueArray.free {α : Type} (_ : ValueArray α) : ValueArray α := ⟨[]⟩

structure Chunk (α : Type) where
  code : List Nat
  lines : List Nat
  constants : ValueArray α
deriving DecidableEq, Repr

def Chunk.new {α : Type} : Chunk α := ⟨[], [], ValueArray.new⟩

/-- `Chunk::write`: append one byte and its line. -/
def Chunk.write {α : Type} (c : Chunk α) (byte line : Nat) : Chunk α :=
  { c with code := c.code ++ [byte], lines := c.lines ++ [line] }

/-- `Chunk::read`: `self.code[ip]`, an index panic when out of range. -/
def Chunk.read {α : Type} (c : Chunk α) (ip : Nat) : Except RunFault Nat :=
  match c.code.get? ip with
  | some b => .ok b
  | none => .error .readOutOfBounds

/-- `Chunk::write_opcode`. -/
def Chunk.write_opcode {α : Type} (c : Chunk α) (opcode : OpCode) (line : Nat) : Chunk α :=
  c.write opcode.toByte line

/-- `Chunk::free`: `self.code = Vec::new(); self.constants.free();` — note
that chunk.rs leaves `self.lines` untouched. -/
def Chunk.free {α : Type} (c : Chunk α) : Chunk α :=
  { c with code := [], constants := c.constants.free }

/-- `Chunk::add_constants`: `self.constants.write(value) as u8`; the cast
truncates the returned count modulo 256. -/
def Chunk.add_constants {α : Type} (c : Chunk α) (value : α) : Chunk α × Nat :=
  let p := c.constants.write value
  ({ c with constants := p.1 }, p.2 % 256)

/-- `Chunk::get_constant`. -/
def Chunk.get_constant {α : Type} (c : Chunk α) (index : Nat) : Except RunFault α :=
  c.constants.read index

/-! ## Compiler driver (compiler.rs, with Token from scanner.rs) -/

/-- The `InterpretError` of main.rs, the error type of `Compiler::compile`. -/
inductive InterpretError where
  | CompileError
  | RuntimeError
deriving DecidableEq, Repr

/-- The `InterpretResult` of vm.rs. -/
inductive InterpretResult where
  | Ok
  | CompileError
  | RuntimeError
deriving DecidableEq, Repr

/-- The token `Parser::default()` starts from. compiler.rs derives
`Default`; the concrete default is never observable through `compile`,
because `advance` overwrites `current` before anything reads it. -/
def Token.defaultToken : Token := ⟨.Eof, "", 0⟩

structure Parser where
  current : Token
  previous : Token
  had_error : Bool
deriving DecidableEq, Repr

def Parser.default : Parser := ⟨Token.defaultToken, Token.defaultToken, false⟩

structure Compiler where
  parser : Parser
  scanner : Scanner
deriving DecidableEq, Repr

def Compiler.new : Compiler := ⟨Parser.default, Scanner.new ""⟩

/-- A single quote character, for the diagnostic format. -/
def squote : String := String.singleton (Char.ofNat 39)

/-- `Compiler::error_at`, as the diagnostic line it writes to stderr. Note
that it only prints: it never sets `parser.had_error`. -/
def Compiler.error_at (token : Token) (message : String) : String :=
  "[line " ++ toString token.line ++ "] Error" ++
    (if token.token_type = .Eof then " at end"
     else if token.token_type = .Error then ""
     else " at " ++ squote ++ token.lexeme ++ squote) ++
    ": " ++ message

/-- The `loop` inside `Compiler::advance`: scan tokens, reporting and
skipping `Error` tokens, until a non-error token lands in `current`. The
accumulated list is the stderr diagnostics. Each `scan_token` call gets the
fuel the termination theorem proves sufficient. -/
def Compiler.advanceLoop : Nat → Compiler → List String →
    Option (Except ScanFault (Compiler × List String))
  | 0, _, _ => none
  | fuel + 1, c, diags =>
    match Scanner.scan_token (c.scanner.source.length + 1) c.scanner with
    | none => none
    | some (.error e) => some (.error e)
    | some (.ok (sc, tok)) =>
      let c := { c with scanner := sc, parser := { c.parser with current := tok } }
      if tok.token_type ≠ .Error then some (.ok (c, diags))
      else Compiler.advanceLoop fuel c (diags ++ [Compiler.error_at tok tok.lexeme])

/-- `Compiler::advance`. -/
def Compiler.advance (fuel : Nat) (c : Compiler) :
    Option (Except ScanFault (Compiler × List String)) :=
  Compiler.advanceLoop fuel
    { c with parser := { c.parser with previous := c.parser.current } } []

/-- `Compiler::compile`: reset the scanner over `source`, `advance` once,
then fail with `CompileError` when `had_error` is set, else succeed with an
empty chunk. The returned list is the stderr diagnostics. -/
def Compiler.compile (α : Type) (fuel : Nat) (c : Compiler) (source : String) :
    Option (Except ScanFault ((Except InterpretError (Chunk α)) × Compiler × List String)) :=
  let c := { c with scanner := Scanner.new source }
  match Compiler.advance fuel c with
  | none => none
  | some (.error e) => some (.error e)
  | some (.ok (c, diags)) =>
    if c.parser.had_error then some (.ok (.error .CompileError, c, diags))
    else some (.ok (.ok Chunk.new, c, diags))

/-! ## VM (vm.rs) -/

structure VM (α : Type) where
  ip : Nat
  stack : List α
deriving DecidableEq, Repr

def VM.new {α : Type} : VM α := ⟨0, []⟩

/-- `VM::read_byte`. -/
def VM.read_byte {α : Type} (vm : VM α) (chunk : Chunk α) :
    Except RunFault (OpCode × VM α) :=
  match chunk.read vm.ip with
  | .error e => .error e
  | .ok b =>
    match opCodeOfByte b with
    | .error e => .error e
    | .ok op => .ok (op, { vm with ip := vm.ip + 1 })

/-- `VM::read_constant`. -/
def VM.read_constant {α : Type} (vm : VM α) (chunk : Chunk α) :
    Except RunFault (α × VM α) :=
  match chunk.read vm.ip with
  | .error e => .error e
  | .ok index =>
    match chunk.get_constant index with
    | .error e => .error e
    | .ok v => .ok (v, { vm with ip := vm.ip + 1 })

/-- `VM::binary_op`: pop `b`, pop `a`, push `op a b`; `unwrap` on an empty
stack is a fault. -/
def VM.binary_op {α : Type} (vm : VM α) (op : α → α → α) :
    Except RunFault (VM α) :=
  match vm.stack with
  | [] => .error .popEmptyStack
  | b :: rest =>
    match rest with
    | [] => .error .popEmptyStack
    | a :: rest2 => .ok { vm with stack := op a b :: rest2 }

/-- `VM::run`: the fetch-decode-execute loop. On success the pair carries
the VM state after `Return` and the value `Return` popped and printed. The
loop starts from the incoming `vm.ip` and `vm.stack`: vm.rs resets
neither. -/
def VM.run {α : Type} [Neg α] [Add α] [Sub α] [Mul α] [Div α] :
    Nat → VM α → Chunk α → Option (Except RunFault (VM α × α))
  | 0, _, _ => none
  | fuel + 1, vm, chunk =>
    match vm.read_byte chunk with
    | .error e => some (.error e)
    | .ok (op, vm) =>
      match op with
      | .Return =>
        match vm.stack with
        | [] => some (.error .popEmptyStack)
        | v :: rest => some (.ok ({ vm with stack := rest }, v))
      | .Constant =>
        match vm.read_constant chunk with
        | .error e => some (.error e)
        | .ok (v, vm) => VM.run fuel { vm with stack := v :: vm.stack } chunk
      | .Negate =>
        match vm.stack with
        | [] => some (.error .popEmptyStack)
        | v :: rest => VM.run fuel { vm with stack := -v :: rest } chunk
      | .Add =>
        match vm.binary_op (fun a b => a + b) with
        | .error e => some (.error e)
        | .ok vm => VM.run fuel vm chunk
      | .Subtract =>
        match vm.binary_op (fun a b => a - b) with
        | .error e => some (.error e)
        | .ok vm => VM.run fuel vm chunk
      | .Multiply =>
        match vm.binary_op (fun a b => a * b) with
        | .error e => some (.error e)
        | .ok vm => VM.run fuel vm chunk
      | .Divide =>
        match vm.binary_op (fun a b => a / b) with
        | .error e => some (.error e)
        | .ok vm => VM.run fuel vm chunk

/-- `VM::interpret`: build a fresh `Compiler`, compile, discard the
outcome, answer `Ok`. The VM state is untouched and no chunk is run; only
a scanner panic inside `compile` can keep it from returning. The list is
the stderr diagnostics `compile` produced. -/
def VM.interpret (α : Type) (fuel : Nat) (vm : VM α) (source : String) :
    Option (Except ScanFault (VM α × InterpretResult × List String)) :=
  match Compiler.compile α fuel Compiler.new source with
  | none => none
  | some (.error e) => some (.error e)
  | some (.ok (_, _, diags)) => some (.ok (vm, .Ok, diags))

/-! ## Concrete inputs used by the claim theorems -/

/-- Project a scan result to its token type. -/
def tokenTypeOf (r : Option (Except ScanFault (Scanner × Token))) :
    Option (Except ScanFault TokenType) :=
  r.map (Except.map (fun p => p.2.token_type))

/-- Project a compile result to the outcome and the stderr diagnostics. -/
def compileOutcome
    (r : Option (Except ScanFault ((Except InterpretError (Chunk ℚ)) × Compiler × List String))) :
    Option (Except ScanFault ((Except InterpretError (Chunk ℚ)) × List String)) :=
  r.map (Except.map (fun t => (t.1, t.2.2)))

/-- A chunk a correct writer could produce: `Constant 0, Return`, with the
single constant 5. -/
def chunkA : Chunk ℚ := ⟨[0, 0, 1], [1, 1, 1], ⟨[5]⟩⟩

/-- The end-to-end chunk of the spec, built through the chunk API:
`Constant(1.2), Constant(3.4), Add, Constant(5.6), Divide, Negate,
Return`. -/
def exampleChunk : Chunk ℚ :=
  let p1 := (Chunk.new : Chunk ℚ).add_constants 1.2
  let c1 := (p1.1.write_opcode .Constant 1).write p1.2 1
  let p2 := c1.add_constants 3.4
  let c2 := (p2.1.write_opcode .Constant 1).write p2.2 1
  let c3 := c2.write_opcode .Add 1
  let p3 := c3.add_constants 5.6
  let c4 := (p3.1.write_opcode .Constant 1).write p3.2 1
  let c5 := c4.write_opcode .Divide 1
  let c6 := c5.write_opcode .Negate 1
  c6.write_opcode .Return 1

/-! ## Termination of the scanner loops

Each source loop strictly advances the cursor or stops, so fuel
`source.length + 1` always suffices; these lemmas carry that argument. -/

lemma advance_fst_source (s : Scanner) : (s.advance).1.source = s.source := rfl

lemma advance_fst_current (s : Scanner) : (s.advance).1.current = s.current + 1 := rfl

lemma current_lt_of_not_atEnd {s : Scanner} (h : ¬ s.is_at_end = true) :
    s.current < s.source.length := by
  simp [Scanner.is_at_end] at h
  omega

lemma current_lt_of_currentChar_ne {s : Scanner} (h : s.currentChar ≠ nulChar) :
    s.current < s.source.length := by
  by_cases he : s.is_at_end = true
  · simp [Scanner.currentChar, he] at h
  · exact current_lt_of_not_atEnd he

lemma commentLoop_some : ∀ (fuel : Nat) (s : Scanner),
    s.source.length - s.current < fuel →
    ∃ s2, Scanner.commentLoop fuel s = some s2 ∧ s2.source = s.source ∧
      s.current ≤ s2.current := by
  intro fuel
  induction fuel with
  | zero => intro s h; omega
  | succ n ih =>
    intro s h
    by_cases hc : s.currentChar ≠ '\n' ∧ ¬ s.is_at_end = true
    · have hlt : s.current < s.source.length := current_lt_of_not_atEnd hc.2
      obtain ⟨s2, h1, h2, h3⟩ := ih (s.advance).1
        (by rw [advance_fst_source, advance_fst_current]; omega)
      refine ⟨s2, ?_, ?_, ?_⟩
      · simp only [Scanner.commentLoop]
        rw [if_pos hc]
        exact h1
      · rw [h2, advance_fst_source]
      · rw [advance_fst_current] at h3; omega
    · refine ⟨s, ?_, rfl, le_refl _⟩
      simp only [Scanner.commentLoop]
      rw [if_neg hc]



lemma identLoop_some : ∀ (fuel : Nat) (s : Scanner),
    s.source.length - s.current < fuel →
    ∃ s2, Scanner.identLoop fuel s = some s2 ∧ s2.source = s.source ∧
      s.current ≤ s2.current := by
  intro fuel
  induction fuel with
  | zero => intro s h; omega
  | succ n ih =>
    intro s h
    by_cases hc : isAlphanumericChar s.currentChar = true
    · have hnul : s.currentChar ≠ nulChar := by
        intro hn
        rw [hn] at hc
        exact absurd hc (by decide)
      have hlt : s.current < s.source.length := current_lt_of_currentChar_ne hnul
      obtain ⟨s2, h1, h2, h3⟩ := ih (s.advance).1
        (by rw [advance_fst_source, advance_fst_current]; omega)
      refine ⟨s2, ?_, ?_, ?_⟩
      · simp only [Scanner.identLoop]
        rw [if_pos hc]
        exact h1
      · rw [h2, advance_fst_source]
      · rw [advance_fst_current] at h3; omega
    · refine ⟨s, ?_, rfl, le_refl _⟩
      simp only [Scanner.identLoop]
      rw [if_neg hc]

lemma digitLoop_some : ∀ (fuel : Nat) (s : Scanner),
    s.source.length - s.current < fuel →
    ∃ s2, Scanner.digitLoop fuel s = some s2 ∧ s2.source = s.source ∧
      s.current ≤ s2.current := by
  intro fuel
  induction fuel with
  | zero => intro s h; omega
  | succ n ih =>
    intro s h
    by_cases hc : s.currentChar.isDigit = true
    · have hnul : s.currentChar ≠ nulChar := by
        intro hn
        rw [hn] at hc
        exact absurd hc (by decide)
      have hlt : s.current < s.source.length := current_lt_of_currentChar_ne hnul
      obtain ⟨s2, h1, h2, h3⟩ := ih (s.advance).1
        (by rw [advance_fst_source, advance_fst_current]; omega)
      refine ⟨s2, ?_, ?_, ?_⟩
      · simp only [Scanner.digitLoop]
        rw [if_pos hc]
        exact h1
      · rw [h2, advance_fst_source]
      · rw [advance_fst_current] at h3; omega
    · refine ⟨s, ?_, rfl, le_refl _⟩
      simp only [Scanner.digitLoop]
      rw [if_neg hc]

lemma stringLoop_some : ∀ (fuel : Nat) (s : Scanner),
    s.source.length - s.current < fuel →
    ∃ s2, Scanner.stringLoop fuel s = some s2 ∧ s2.source = s.source ∧
      s.current ≤ s2.current := by
  intro fuel
  induction fuel with
  | zero => intro s h; omega
  | succ n ih =>
    intro s h
    by_cases hc : s.currentChar ≠ '"' ∧ ¬ s.is_at_end = true
    · have hlt : s.current < s.source.length := current_lt_of_not_atEnd hc.2
      have hsrc : ((if s.currentChar = '\n' then { s with line := s.line + 1 } else s).advance).1.source = s.source := by
        split <;> rfl
      have hcur : ((if s.currentChar = '\n' then { s with line := s.line + 1 } else s).advance).1.current = s.current + 1 := by
        split <;> rfl
      obtain ⟨s2, h1, h2, h3⟩ :=
        ih ((if s.currentChar = '\n' then { s with line := s.line + 1 } else s).advance).1
          (by rw [hsrc, hcur]; omega)
      refine ⟨s2, ?_, ?_, ?_⟩
      · simp only [Scanner.stringLoop]
        rw [if_pos hc]
        exact h1
      · rw [h2, hsrc]
      · rw [hcur] at h3; omega
    · refine ⟨s, ?_, rfl, le_refl _⟩
      simp only [Scanner.stringLoop]
      rw [if_neg hc]



lemma peek_eq_ok_some {s : Scanner} {c2 : Char} (h : s.peek = .ok (some c2)) :
    s.current + 1 < s.source.length := by
  unfold Scanner.peek at h
  by_cases he : s.is_at_end = true
  · rw [if_pos he] at h; simp at h
  · rw [if_neg he] at h
    by_cases hb : s.current + 1 < s.source.length
    · exact hb
    · rw [dif_neg hb] at h; simp at h

lemma not_atEnd_of_lt {s : Scanner} (h : s.current < s.source.length) :
    ¬ s.is_at_end = true := by
  simp [Scanner.is_at_end]
  omega

lemma skip_ignored_some : ∀ (fuel : Nat) (s : Scanner),
    s.source.length - s.current < fuel →
    ∃ r, Scanner.skip_ignored fuel s = some r ∧
      ∀ s2, r = .ok s2 → s2.source = s.source ∧ s.current ≤ s2.current := by
  intro fuel
  induction fuel with
  | zero => intro s h; omega
  | succ n ih =>
    intro s h
    by_cases h1 : s.currentChar = ' ' ∨ s.currentChar = '\r' ∨ s.currentChar = '\t'
    · have hnul : s.currentChar ≠ nulChar := by
        rcases h1 with h1 | h1 | h1 <;> rw [h1] <;> decide
      have hlt : s.current < s.source.length := current_lt_of_currentChar_ne hnul
      obtain ⟨r, hr, hpost⟩ := ih (s.advance).1
        (by rw [advance_fst_source, advance_fst_current]; omega)
      refine ⟨r, ?_, ?_⟩
      · simp only [Scanner.skip_ignored]
        rw [if_pos h1]
        exact hr
      · intro s2 h2
        obtain ⟨ha, hb⟩ := hpost s2 h2
        rw [advance_fst_source] at ha
        rw [advance_fst_current] at hb
        exact ⟨ha, by omega⟩
    · by_cases h2 : s.currentChar = '\n'
      · have hlt : s.current < s.source.length := current_lt_of_currentChar_ne (by rw [h2]; decide)
        obtain ⟨r, hr, hpost⟩ := ih (({ s with line := s.line + 1 }).advance).1
          (by simp only [Scanner.advance]; omega)
        refine ⟨r, ?_, ?_⟩
        · simp only [Scanner.skip_ignored]
          rw [if_neg h1, if_pos h2]
          exact hr
        · intro s2 hs2
          obtain ⟨ha, hb⟩ := hpost s2 hs2
          simp only [Scanner.advance] at ha hb
          exact ⟨ha, by omega⟩
      · by_cases h3 : s.currentChar = '/'
        · cases hp : s.peek with
          | error e =>
            refine ⟨.error e, ?_, ?_⟩
            · simp only [Scanner.skip_ignored]
              rw [if_neg h1, if_neg h2, if_pos h3, hp]
            · intro s2 hs2; cases hs2
          | ok oc =>
            cases oc with
            | none =>
              refine ⟨.ok s, ?_, ?_⟩
              · simp only [Scanner.skip_ignored]
                rw [if_neg h1, if_neg h2, if_pos h3, hp]
              · intro s2 hs2
                cases hs2
                exact ⟨rfl, le_refl _⟩
            | some c2 =>
              by_cases hc2 : c2 = '/'
              · have hb : s.current + 1 < s.source.length := peek_eq_ok_some hp
                have hone : Scanner.commentLoop (n + 1) s =
                    Scanner.commentLoop n (s.advance).1 := by
                  simp only [Scanner.commentLoop]
                  rw [if_pos ⟨by rw [h3]; decide, not_atEnd_of_lt (by omega)⟩]
                obtain ⟨sc, hsc, hscsrc, hsccur⟩ := commentLoop_some n (s.advance).1
                  (by rw [advance_fst_source, advance_fst_current]; omega)
                rw [advance_fst_source] at hscsrc
                rw [advance_fst_current] at hsccur
                obtain ⟨r, hr, hpost⟩ := ih sc (by rw [hscsrc]; omega)
                refine ⟨r, ?_, ?_⟩
                · simp only [Scanner.skip_ignored]
                  rw [if_neg h1, if_neg h2, if_pos h3, hp]
                  show (if c2 = '/' then
                      match Scanner.commentLoop (n + 1) s with
                      | none => none
                      | some s2 => Scanner.skip_ignored n s2
                    else some (.ok s)) = some r
                  rw [if_pos hc2, hone, hsc]
                  exact hr
                · intro s2 hs2
                  obtain ⟨ha, hb2⟩ := hpost s2 hs2
                  rw [hscsrc] at ha
                  exact ⟨ha, by omega⟩
              · refine ⟨.ok s, ?_, ?_⟩
                · simp only [Scanner.skip_ignored]
                  rw [if_neg h1, if_neg h2, if_pos h3, hp]
                  show (if c2 = '/' then
                      match Scanner.commentLoop (n + 1) s with
                      | none => none
                      | some s2 => Scanner.skip_ignored n s2
                    else some (.ok s)) = some (.ok s)
                  rw [if_neg hc2]
                · intro s2 hs2
                  cases hs2
                  exact ⟨rfl, le_refl _⟩
        · refine ⟨.ok s, ?_, ?_⟩
          · simp only [Scanner.skip_ignored]
            rw [if_neg h1, if_neg h2, if_neg h3]
          · intro s2 hs2
            cases hs2
            exact ⟨rfl, le_refl _⟩



lemma identifier_ne_none (fuel : Nat) (s : Scanner)
    (h : s.source.length - s.current < fuel) :
    Scanner.identifier fuel s ≠ none := by
  obtain ⟨s2, h1, _, _⟩ := identLoop_some fuel s h
  simp only [Scanner.identifier, h1]
  cases s2.identifier_type <;> simp

lemma number_ne_none (fuel : Nat) (s : Scanner)
    (h : s.source.length - s.current < fuel) :
    Scanner.number fuel s ≠ none := by
  obtain ⟨s2, h1, h2, h3⟩ := digitLoop_some fuel s h
  simp only [Scanner.number, h1]
  by_cases hd : s2.currentChar = '.'
  · rw [if_pos hd]
    cases hp : s2.peek with
    | error e => simp
    | ok oc =>
      cases oc with
      | none => simp
      | some i =>
        by_cases hi : i.isDigit = true
        · obtain ⟨s3, h4, _, _⟩ := digitLoop_some fuel ((s2.advance).1)
            (by rw [advance_fst_source, advance_fst_current, h2]; omega)
          simp [hi, h4]
        · simp [hi]
  · simp [hd]



lemma stringTok_ne_none (fuel : Nat) (s : Scanner)
    (h : s.source.length - s.current < fuel) :
    Scanner.stringTok fuel s ≠ none := by
  obtain ⟨s2, h1, _, _⟩ := stringLoop_some fuel s h
  simp only [Scanner.stringTok, h1]
  by_cases he : s2.is_at_end = true <;> simp [he]

lemma scanTokenCore_ne_none (fuel : Nat) (s : Scanner)
    (h : s.source.length - s.current < fuel) :
    Scanner.scanTokenCore fuel s ≠ none := by
  simp only [Scanner.scanTokenCore]
  by_cases he : ({ s with start := s.current } : Scanner).is_at_end = true
  · rw [if_pos he]
    simp
  · rw [if_neg he]
    have hu2 : (({ s with start := s.current } : Scanner).advance).1.source.length -
        (({ s with start := s.current } : Scanner).advance).1.current < fuel := by
      show s.source.length - (s.current + 1) < fuel
      omega
    generalize hp : ({ s with start := s.current } : Scanner).advance = p
    rw [hp] at hu2
    obtain ⟨u, c⟩ := p
    by_cases h1 : rustIsAlphabetic c = true
    · rw [if_pos h1]
      exact identifier_ne_none fuel u hu2
    · rw [if_neg h1]
      by_cases hd : c.isDigit = true
      · rw [if_pos hd]
        exact number_ne_none fuel u hu2
      · rw [if_neg hd]
        have hu3 : u.source.length - u.current < fuel := hu2
        have hite : ∀ (P : Prop) (inst : Decidable P)
            (x y : Option (Except ScanFault (Scanner × Token))),
            x ≠ none → y ≠ none → (@ite _ P inst x y) ≠ none := by
          intro P inst x y hx hy
          by_cases hP : P
          · rwa [if_pos hP]
          · rwa [if_neg hP]
        repeat
          first
          | exact Option.some_ne_none _
          | exact stringTok_ne_none fuel u hu3
          | apply hite

/-- C10: every call to `scan_token` terminates for every source buffer and
cursor position: with fuel `source.length + 1` (enough for each internal
loop, which either strictly advances the cursor or reaches end of input)
the scan never runs out of fuel, returning a token or a scanner fault. -/
theorem scan_token_total (s : Scanner) :
    Scanner.scan_token (s.source.length + 1) s ≠ none := by
  unfold Scanner.scan_token
  obtain ⟨r, hr, hpost⟩ := skip_ignored_some (s.source.length + 1) s (by omega)
  rw [hr]
  cases r with
  | error e => simp
  | ok s2 =>
    obtain ⟨hsrc, hcur⟩ := hpost s2 rfl
    exact scanTokenCore_ne_none (s.source.length + 1) s2 (by rw [hsrc]; omega)

/-! ## Claim theorems -/

/-- C1: scanning the identifier-shaped sources "fo", "for" and "foo".
The claim (and the spec) expect kinds identifier, keyword For, identifier;
the code classifies all three as `Identifier`, because `check_keyword`
receives the absolute token start and so compares the slice beginning at
the first lexeme character with the keyword suffix, which never matches.
This theorem evaluates the code at the failing input "for". -/
theorem scan_keyword_dispatch_eval :
    tokenTypeOf (Scanner.scan_token 3 (Scanner.new "fo")) = some (.ok .Identifier) ∧
    tokenTypeOf (Scanner.scan_token 4 (Scanner.new "for")) = some (.ok .Identifier) ∧
    tokenTypeOf (Scanner.scan_token 4 (Scanner.new "foo")) = some (.ok .Identifier) :=
  ⟨rfl, rfl, rfl⟩

/-- C2: the claim says `compile` fails with `CompileError` exactly when the
scanner produced an error token. On source "@" the scanner yields an
`Error` token and a diagnostic is emitted, yet `error_at` never sets
`had_error`, so `compile` succeeds with an empty chunk. This theorem
evaluates the code at that failing input. -/
theorem compile_error_not_recorded_eval :
    compileOutcome (Compiler.compile ℚ 3 Compiler.new "@") =
      some (.ok (.ok Chunk.new, ["[line 1] Error: Unexpected character."])) := rfl

/-- C3: the claim says `free` discards code, lines and constants together
and that `len(code) = len(lines)` holds after every operation. After
`write 1 123` followed by `free`, the code and constants are empty but the
lines table still holds the written entry, breaking the invariant. -/
theorem chunk_free_keeps_lines_eval :
    (((Chunk.new : Chunk ℚ).write 1 123).free).code = [] ∧
    (((Chunk.new : Chunk ℚ).write 1 123).free).lines = [123] ∧
    (((Chunk.new : Chunk ℚ).write 1 123).free).constants.values = [] :=
  ⟨rfl, rfl, rfl⟩

set_option maxRecDepth 4000 in
/-- C4 (counterexample): with the pool already holding 256 values,
`add_constants` does not fail with a capacity error: it appends a 257th
value and returns index 0, the truncation of 256 to a byte. -/
theorem add_constants_at_capacity :
    ((⟨[], [], ⟨List.replicate 256 0⟩⟩ : Chunk ℚ).add_constants 1).2 = 0 ∧
    ((⟨[], [], ⟨List.replicate 256 0⟩⟩ : Chunk ℚ).add_constants 1).1.constants.values.length = 257 := by
  constructor
  · rfl
  · simp [Chunk.add_constants, ValueArray.write]

/-- C4 (amended): for every pool holding fewer than 256 values,
`add_constants` appends the value and returns its position; above that the
returned index is the position truncated modulo 256 and no error is
raised. -/
theorem add_constants_below_capacity (c : Chunk ℚ) (v : ℚ)
    (h : c.constants.values.length < 256) :
    (c.add_constants v).1.constants.values = c.constants.values ++ [v] ∧
    (c.add_constants v).2 = c.constants.values.length := by
  refine ⟨rfl, ?_⟩
  show c.constants.values.length % 256 = c.constants.values.length
  exact Nat.mod_eq_of_lt h

/-- C4 witness: `add_constants` on the empty chunk. -/
theorem add_constants_below_capacity_witness :
    ((Chunk.new : Chunk ℚ).add_constants 5).1.constants.values = [5] ∧
    ((Chunk.new : Chunk ℚ).add_constants 5).2 = 0 := by
  have h := add_constants_below_capacity Chunk.new 5 (by decide)
  simpa using h

/-- C5: the claim says one-character lookahead at or past the end of input
yields a sentinel absence instead of reading out of bounds. On source "/",
`peek` passes its `is_at_end` guard and indexes one element past the
buffer: an index panic, which `scan_token` surfaces, instead of the
required sentinel. -/
theorem peek_reads_past_buffer_eval :
    (Scanner.new "/").peek = .error .indexOutOfBounds ∧
    Scanner.scan_token 2 (Scanner.new "/") = some (.error .indexOutOfBounds) :=
  ⟨rfl, rfl⟩

/-- C6 (counterexample): `run` does not reset the instruction pointer or
the stack. Running `chunkA` from a fresh VM succeeds leaving ip = 3; a
second `run` on that same VM state resumes at ip 3 and faults reading past
the code, where a reset to ip = 0 would have succeeded again. -/
theorem run_resumes_at_stale_ip :
    VM.run 10 (VM.new : VM ℚ) chunkA = some (.ok (⟨3, []⟩, 5)) ∧
    VM.run 10 (⟨3, []⟩ : VM ℚ) chunkA = some (.error .readOutOfBounds) :=
  ⟨rfl, rfl⟩

/-- C6 (amended): `VM::new` initialises ip = 0 and an empty stack, but
neither `interpret` nor `run` resets them; `interpret` returns the VM
exactly as it received it. -/
theorem interpret_leaves_vm_untouched (fuel : Nat) (vm : VM ℚ) (source : String)
    (r : VM ℚ × InterpretResult × List String)
    (h : VM.interpret ℚ fuel vm source = some (.ok r)) :
    r.1 = vm := by
  unfold VM.interpret at h
  cases hc : Compiler.compile ℚ fuel Compiler.new source with
  | none => rw [hc] at h; exact absurd h (by simp)
  | some v =>
    cases v with
    | error e => rw [hc] at h; exact absurd h (by simp)
    | ok t =>
      obtain ⟨o, cc, d⟩ := t
      rw [hc] at h
      simp only [Option.some.injEq, Except.ok.injEq] at h
      rw [← h]

/-- C6 witness: `interpret` on the empty source from a VM with ip = 7. -/
theorem interpret_leaves_vm_untouched_witness :
    (((⟨7, [2]⟩ : VM ℚ), InterpretResult.Ok, ([] : List String)) :
      VM ℚ × InterpretResult × List String).1 = (⟨7, [2]⟩ : VM ℚ) :=
  interpret_leaves_vm_untouched 3 ⟨7, [2]⟩ "" (⟨7, [2]⟩, .Ok, []) rfl

/-- C7: executing Add, Subtract, Multiply or Divide with stack
`b :: a :: rest` (so `b` was pushed last) pops `b` then `a` and pushes
`a <op> b`: the value pushed earlier is the left operand. Stated both for
`binary_op` itself and for one step of the `run` loop fetching the
corresponding opcode byte. -/
theorem run_binary_op_order {α : Type} [Neg α] [Add α] [Sub α] [Mul α] [Div α]
    (fuel : Nat) (vm : VM α) (chunk : Chunk α) (b a : α) (rest : List α)
    (hstack : vm.stack = b :: a :: rest) :
    (∀ op : α → α → α, vm.binary_op op = .ok { vm with stack := op a b :: rest }) ∧
    (chunk.code.get? vm.ip = some 3 →
      VM.run (fuel + 1) vm chunk =
        VM.run fuel { vm with ip := vm.ip + 1, stack := (a + b) :: rest } chunk) ∧
    (chunk.code.get? vm.ip = some 4 →
      VM.run (fuel + 1) vm chunk =
        VM.run fuel { vm with ip := vm.ip + 1, stack := (a - b) :: rest } chunk) ∧
    (chunk.code.get? vm.ip = some 5 →
      VM.run (fuel + 1) vm chunk =
        VM.run fuel { vm with ip := vm.ip + 1, stack := (a * b) :: rest } chunk) ∧
    (chunk.code.get? vm.ip = some 6 →
      VM.run (fuel + 1) vm chunk =
        VM.run fuel { vm with ip := vm.ip + 1, stack := (a / b) :: rest } chunk) := by
  refine ⟨?_, ?_, ?_, ?_, ?_⟩
  · intro op
    simp [VM.binary_op, hstack]
  all_goals
    intro hcode
    simp only [VM.run, VM.read_byte, Chunk.read, opCodeOfByte]
    rw [hcode]
    simp [VM.binary_op, hstack]

/-- C7 witness: `binary_op` addition at a concrete stack, and one `run`
step over a chunk holding an Add opcode at ip 0. -/
theorem run_binary_op_order_witness :
    VM.binary_op (⟨0, [2, 8, 9]⟩ : VM ℚ) (fun a b => a + b) = .ok ⟨0, [10, 9]⟩ ∧
    VM.run 1 (⟨0, [2, 8, 9]⟩ : VM ℚ) (⟨[3], [1], ⟨[]⟩⟩ : Chunk ℚ) =
      VM.run 0 (⟨1, [10, 9]⟩ : VM ℚ) (⟨[3], [1], ⟨[]⟩⟩ : Chunk ℚ) := by
  have h := run_binary_op_order 0 (⟨0, [2, 8, 9]⟩ : VM ℚ) (⟨[3], [1], ⟨[]⟩⟩ : Chunk ℚ)
    2 8 [9] rfl
  constructor
  · have h1 := h.1 (fun a b => a + b)
    rw [h1]
    norm_num
  · have h2 := h.2.1 rfl
    rw [h2]
    rfl

/-- C8: running the chunk `Constant(1.2), Constant(3.4), Add,
Constant(5.6), Divide, Negate, Return` terminates with success and the
value popped at `Return` is `-((1.2 + 3.4) / 5.6)`, which in exact
arithmetic is `-(23/28) = -0.82142857...`. -/
theorem run_example_chunk :
    VM.run 10 (VM.new : VM ℚ) exampleChunk =
      some (.ok (⟨10, []⟩, -((1.2 + 3.4) / 5.6))) ∧
    (-((1.2 + 3.4) / 5.6) : ℚ) = -(23 / 28) :=
  ⟨rfl, by norm_num⟩

/-- C9 (counterexample): `interpret` does not return `Ok` for every source
string: on "/" the scanner panics inside `compile` and the panic
propagates out of `interpret`. -/
theorem interpret_panics_on_scanner_fault :
    VM.interpret ℚ 3 (VM.new : VM ℚ) "/" = some (.error .indexOutOfBounds) := rfl

/-- C9 (amended): whenever `interpret` returns normally it discards the
compilation outcome and answers `Ok`; it never reports a compile error and
never executes any bytecode. -/
theorem interpret_ok_whenever_it_returns (fuel : Nat) (vm : VM ℚ) (source : String)
    (r : VM ℚ × InterpretResult × List String)
    (h : VM.interpret ℚ fuel vm source = some (.ok r)) :
    r.2.1 = InterpretResult.Ok := by
  unfold VM.interpret at h
  cases hc : Compiler.compile ℚ fuel Compiler.new source with
  | none => rw [hc] at h; exact absurd h (by simp)
  | some v =>
    cases v with
    | error e => rw [hc] at h; exact absurd h (by simp)
    | ok t =>
      obtain ⟨o, cc, d⟩ := t
      rw [hc] at h
      simp only [Option.some.injEq, Except.ok.injEq] at h
      rw [← h]

/-- C9 witness: `interpret` on the empty source. -/
theorem interpret_ok_whenever_it_returns_witness :
    (((VM.new : VM ℚ), InterpretResult.Ok, ([] : List String)) :
      VM ℚ × InterpretResult × List String).2.1 = InterpretResult.Ok :=
  interpret_ok_whenever_it_returns 3 VM.new "" (VM.new, .Ok, []) rfl

end RLox
